import Mathlib

/-!
Verification of the ezfs storage-abstraction library (`src/ezfs.py`).

The development shallowly embeds the parts of `ezfs.py` that the claims
concern: the `Transform`/`Compressor` byte pipeline, the generic `File`
mode checks and read/write pipeline, the in-memory backend
(`MemFilesystem`/`MemFile`), the generic `Filesystem.rename` guards, the
`LocalFilesystem` path-safety validation, the `SQLiteFilesystem`
identifier validation, and compression resolution in `Filesystem.open`.

Python values are modelled as follows: `bytes` as `List Nat` (byte
values), `str` as `List Nat` (Unicode codepoints) for content and as
`List Char` for paths/modes/identifiers, `dict` as association lists,
and raised exceptions as explicit error values.  The text encoding is
fixed to the source's default, UTF-8.
-/

set_option autoImplicit false

namespace EzFS

/-- Raw byte strings (Python `bytes`), one `Nat` per byte. -/
abbrev Bytes := List Nat

/-- Unicode text (Python `str`), one `Nat` per codepoint. -/
abbrev Str := List Nat

/-- Content handled by `File.read`/`File.write`: either `str` or `bytes`. -/
inductive Content where
  | str (s : Str)
  | bytes (b : Bytes)
  deriving DecidableEq, Repr

/-- Python `len()` on file content (codepoints for `str`, bytes for `bytes`). -/
def Content.pyLen : Content → Nat
  | .str s => s.length
  | .bytes b => b.length

/-- Exceptions raised by the embedded ezfs code paths. -/
inductive PyErr where
  | invalidMode (mode : List Char)   -- ValueError: Invalid mode: '...'
  | readWriteMode                    -- ValueError: must have exactly one of read/write mode
  | textBinaryMode                   -- ValueError: can't have text and binary mode at once
  | notWriteable                     -- io.UnsupportedOperation: not writeable
  | notReadable                      -- io.UnsupportedOperation: not readable
  | typeErr (msg : String)           -- TypeError
  | fileNotFound (path : List Char)  -- FileNotFoundError (errno.ENOENT)
  | fileExists (path : List Char)    -- FileExistsError (errno.EEXIST)
  | notPermitted (path : List Char)  -- OSError (errno.EPERM)
  | notImplErr                       -- NotImplementedError for dir_fd arguments
  | keyError (key : List Char)       -- KeyError on compressor-cache lookup
  | identError (arg : String)        -- ValueError for invalid SQLite identifier names
  deriving DecidableEq, Repr

/-! ## UTF-8 (the default `encoding="utf-8"` used by the pipeline) -/

/-- UTF-8 encoding of a single codepoint, as produced by `str.encode("utf-8")`. -/
def utf8EncodeChar (c : Nat) : Bytes :=
  if c < 128 then [c]
  else if c < 2048 then [192 + c / 64, 128 + c % 64]
  else if c < 65536 then [224 + c / 4096, 128 + c / 64 % 64, 128 + c % 64]
  else [240 + c / 262144, 128 + c / 4096 % 64, 128 + c / 64 % 64, 128 + c % 64]

/-- UTF-8 encoding of a whole string (`str.encode("utf-8")`). -/
def utf8Encode : Str → Bytes
  | [] => []
  | c :: rest => utf8EncodeChar c ++ utf8Encode rest

/-- Byte-at-a-time UTF-8 decoder.  The state is `none` when the next byte
must be a lead byte, and `some (acc, k)` when `k` continuation bytes are
still pending for a codepoint whose accumulated high bits are `acc`. -/
def utf8DecodeSM : Option (Nat × Nat) → Bytes → Str
  | _, [] => []
  | none, b :: rest =>
    if b < 128 then b :: utf8DecodeSM none rest
    else if b < 224 then utf8DecodeSM (some (b - 192, 1)) rest
    else if b < 240 then utf8DecodeSM (some (b - 224, 2)) rest
    else utf8DecodeSM (some (b - 240, 3)) rest
  | some (acc, k), b :: rest =>
    if k = 1 then (acc * 64 + (b - 128)) :: utf8DecodeSM none rest
    else utf8DecodeSM (some (acc * 64 + (b - 128), k - 1)) rest

/-- UTF-8 decoding (`bytes.decode("utf-8")`), on well-formed input. -/
def utf8Decode (b : Bytes) : Str := utf8DecodeSM none b

/-- Codepoints that Python `str.encode("utf-8")` accepts (no surrogates). -/
def validCodepoint (c : Nat) : Prop := c < 1114112 ∧ ¬(55296 ≤ c ∧ c < 57344)

instance (c : Nat) : Decidable (validCodepoint c) := by
  unfold validCodepoint; infer_instance

/-! ## Transform (ezfs.Transform, lines 75-142)

A `Transform` holds the raw forward function `_apply`, the raw backward
function `_remove`, and the optional `_dependent` link set by `chain`. -/

/-- Embeds `ezfs.Transform`: `applyFn` is `_apply`, `removeFn` is
`_remove`, `dependent` is `_dependent` (initialized to `None`). -/
inductive Transform where
  | mk (applyFn removeFn : Bytes → Bytes) (dependent : Option Transform)

/-- Raw forward function (`Transform._apply`). -/
def Transform.applyFn : Transform → Bytes → Bytes
  | .mk f _ _ => f

/-- Raw backward function (`Transform._remove`). -/
def Transform.removeFn : Transform → Bytes → Bytes
  | .mk _ r _ => r

/-- Chain link (`Transform._dependent`). -/
def Transform.dependent : Transform → Option Transform
  | .mk _ _ d => d

/-- Embeds `Transform.apply`: run `_apply`, then forward through `_dependent`. -/
def Transform.apply : Transform → Bytes → Bytes
  | .mk f _ none, data => f data
  | .mk f _ (some dep), data => dep.apply (f data)

/-- Embeds `Transform.remove`: remove `_dependent` first, then run `_remove`. -/
def Transform.remove : Transform → Bytes → Bytes
  | .mk _ r none, data => r data
  | .mk _ r (some dep), data => r (dep.remove data)

/-- Embeds `Transform._copy`: a fresh transform with the same raw
functions and no `_dependent` (the constructor sets it to `None`). -/
def Transform.copyT : Transform → Transform
  | .mk f r _ => .mk f r none

/-- Embeds `Transform.chain(*transforms)` for a non-empty argument list
(written head and tail): every argument is copied via `_copy`, then each
copy's `_dependent` is set to the next copy. -/
def Transform.chain : Transform → List Transform → Transform
  | t, [] => t.copyT
  | t, u :: rest => .mk t.applyFn t.removeFn (some (Transform.chain u rest))

/-- Pipeline application of an optional transform (`if transform: ... .apply`). -/
def optApply : Option Transform → Bytes → Bytes
  | none, b => b
  | some t, b => t.apply b

/-- Pipeline removal of an optional transform (`if transform: ... .remove`). -/
def optRemove : Option Transform → Bytes → Bytes
  | none, b => b
  | some t, b => t.remove b

/-- States that an optional transform's `remove` method inverts its
`apply` method (the library's documented contract, not checked by it). -/
def InvertsOpt : Option Transform → Prop
  | none => True
  | some t => ∀ b : Bytes, t.remove (t.apply b) = b

/-! ## File mode checks (ezfs.File._open_checks, lines 401-413) -/

/-- Mode strings (`"rt"`, `"wb"`, ...). -/
abbrev Mode := List Char

/-- Embeds `File.valid_modes`. -/
def validModes : Mode := ['r', 'w', 'b', 't', '+']

/-- Steps 3 and 4 of `File._open_checks`, run on the normalized mode:
raise on both read and write, then on both text and binary. -/
def File.openChecksConflicts (mode1 : Mode) : Mode × Option PyErr :=
  if 'r' ∈ mode1 ∧ 'w' ∈ mode1 then (mode1, some .readWriteMode)
  else if 't' ∈ mode1 ∧ 'b' ∈ mode1 then (mode1, some .textBinaryMode)
  else (mode1, none)

/-- Embeds `File._open_checks`.  Returns the final value of `self.mode`
(the source mutates it before either conflict check can raise) together
with the raised error, if any. -/
def File.openChecks (mode : Mode) : Mode × Option PyErr :=
  if ∀ c ∈ mode, c ∈ validModes then
    File.openChecksConflicts (if 't' ∉ mode ∧ 'b' ∉ mode then mode ++ ['t'] else mode)
  else (mode, some (.invalidMode mode))

/-! ## File read/write pipeline (ezfs.File, lines 419-477) -/

/-- Encodes `str` content to UTF-8 bytes, leaving `bytes` content alone
(the effect of `content = content.encode(self.encoding)` guarded by
`isinstance(content, str)`). -/
def Content.encodeIfStr : Content → Content
  | .str s => .bytes (utf8Encode s)
  | .bytes b => .bytes b

/-- Bytes of the content after the conditional UTF-8 encoding step. -/
def Content.toBytes : Content → Bytes
  | .str s => utf8Encode s
  | .bytes b => b

/-- Embeds `File._write_checks` (lines 468-477).  The source's
`isinstance(content, (bytes, str))` test is vacuous here because
`Content` only has those two forms. -/
def File.writeChecks (mode : Mode) : Content → Option PyErr
  | .bytes _ =>
    if 'w' ∉ mode then some .notWriteable
    else if 'b' ∉ mode then some (.typeErr "write() argument must be str, not bytes")
    else none
  | .str _ =>
    if 'w' ∉ mode then some .notWriteable
    else if 't' ∉ mode then some (.typeErr "write() argument must be bytes, not str")
    else none

/-- Runs an optional transform's `apply` on content.  When the pipeline
reaches this step with a transform set, the content is always `bytes`
(the encode step ran); on `str` the underlying codec would raise
`TypeError`, which the embedding makes explicit. -/
def applyOptT : Option Transform → Content → Except PyErr Content
  | none, c => .ok c
  | some t, .bytes b => .ok (.bytes (t.apply b))
  | some _, .str _ => .error (.typeErr "transform applied to str")

/-- Runs an optional transform's `remove` on content (see `applyOptT`). -/
def removeOptT : Option Transform → Content → Except PyErr Content
  | none, c => .ok c
  | some t, .bytes b => .ok (.bytes (t.remove b))
  | some _, .str _ => .error (.typeErr "transform removed from str")

/-- Embeds `File.write` (lines 444-466) up to the backend `_write` call:
checks, conditional encode, transform, compression, and the final encode
unless `skip_write_encode` is set.  Returns the data handed to `_write`. -/
def File.writePipeline (skipWriteEncode : Bool) (compression transform : Option Transform)
    (mode : Mode) (content : Content) : Except PyErr Content :=
  match File.writeChecks mode content with
  | some e => .error e
  | none =>
    let c1 := if compression.isSome || transform.isSome then content.encodeIfStr else content
    (applyOptT transform c1).bind fun c2 =>
      (applyOptT compression c2).bind fun c3 =>
        .ok (if skipWriteEncode then c3 else c3.encodeIfStr)

/-- Decodes bytes in text mode (`if isinstance(data, bytes) and "t" in self.mode`). -/
def decodeIfText (mode : Mode) : Content → Content
  | .bytes b => if 't' ∈ mode then .str (utf8Decode b) else .bytes b
  | .str s => .str s

/-! ## In-memory backend (ezfs.MemFilesystem / ezfs.MemFile, lines 620-670) -/

/-- Path keys of the in-memory tree. -/
abbrev PathStr := List Char

/-- The `MemFilesystem.tree` dictionary (`dict[str, bytes | str]`). -/
abbrev Tree := List (PathStr × Content)

/-- Dictionary lookup `tree.get(key)`. -/
def treeGet : Tree → PathStr → Option Content
  | [], _ => none
  | p :: rest, k => if p.1 = k then some p.2 else treeGet rest k

/-- Dictionary assignment `tree[key] = value`. -/
def treeSet : Tree → PathStr → Content → Tree
  | [], k, v => [(k, v)]
  | p :: rest, k, v => if p.1 = k then (k, v) :: rest else p :: treeSet rest k v

/-- Dictionary removal `tree.pop(key)`. -/
def treePop : Tree → PathStr → Tree
  | [], _ => []
  | p :: rest, k => if p.1 = k then rest else p :: treePop rest k

/-- Embeds `MemFile._read_checks` (lines 662-665): a missing file in
read mode raises `FileNotFoundError`, then the base check raises
`UnsupportedOperation` when the mode is not a read mode. -/
def MemFile.readChecks (tree : Tree) (path : PathStr) (mode : Mode) : Option PyErr :=
  if 'r' ∈ mode ∧ (treeGet tree path).isNone then some (.fileNotFound path)
  else if 'r' ∉ mode then some .notReadable
  else none

/-- Embeds `File.read` (lines 419-433) for a `MemFile`: checks, backend
read from the tree, decompression, transform removal, and text decode. -/
def MemFile.read (tree : Tree) (path : PathStr) (compression transform : Option Transform)
    (mode : Mode) : Except PyErr Content :=
  match MemFile.readChecks tree path mode with
  | some e => .error e
  | none =>
    match treeGet tree path with
    | none => .error (.fileNotFound path)  -- unreachable: the checks ensure presence
    | some data =>
      (removeOptT compression data).bind fun d1 =>
        (removeOptT transform d1).bind fun d2 =>
          .ok (decodeIfText mode d2)

/-- Embeds `File.write` for a `MemFile` (`skip_write_encode = False`),
including `MemFile._write` (lines 667-670): the final data is stored in
the tree and its `len()` is returned. -/
def MemFile.write (tree : Tree) (path : PathStr) (compression transform : Option Transform)
    (mode : Mode) (content : Content) : Except PyErr (Nat × Tree) :=
  (File.writePipeline false compression transform mode content).map fun c =>
    (c.pyLen, treeSet tree path c)

/-- Embeds `MemFilesystem._rename` (lines 648-649):
`tree[dst] = tree.pop(src)`.  A missing source would raise `KeyError` in
Python; under the generic guards that case is unreachable, and the
embedding leaves the tree unchanged there. -/
def MemFilesystem.rawRename (tree : Tree) (src dst : PathStr) : Tree :=
  match treeGet tree src with
  | some v => treeSet (treePop tree src) dst v
  | none => tree

/-- Embeds the generic `Filesystem.rename` guards (lines 293-319)
instantiated at `MemFilesystem`, whose `exists` and `isfile` are both
membership in the tree: reject `dir_fd` arguments, then missing source,
then non-file source (the same membership test for this backend), then
an existing destination; only then run the backend `_rename`. -/
def MemFilesystem.rename (tree : Tree) (src dst : PathStr)
    (srcDirFd dstDirFd : Option Nat) : Tree × Option PyErr :=
  if srcDirFd.isSome || dstDirFd.isSome then (tree, some .notImplErr)
  else if (treeGet tree src).isNone then (tree, some (.fileNotFound src))
  else if (treeGet tree src).isNone then (tree, some (.notPermitted src))
  else if (treeGet tree dst).isSome then (tree, some (.fileExists dst))
  else (MemFilesystem.rawRename tree src dst, none)

/-- Example transform that doubles its input, standing in for a concrete
compressor whose output length differs from its input length. -/
def dupTransform : Transform :=
  .mk (fun b => b ++ b) (fun b => List.take (b.length / 2) b) none

/-! ## Local path safety (ezfs.LocalFilesystem, lines 503-527 and 562-567)

POSIX path strings are modelled as `List Char`.  `os.path.abspath` on an
already-absolute path is `os.path.normpath`: split on the separator,
drop empty and "." components, let ".." pop the previous component (or
vanish at the root), and rejoin with a leading separator. -/

def splitSlashAux : List Char → List Char → List (List Char)
  | [], acc => [acc.reverse]
  | ch :: rest, acc =>
    if ch = '/' then acc.reverse :: splitSlashAux rest [] else splitSlashAux rest (ch :: acc)

/-- Splits a path string on the `/` separator. -/
def splitSlash (s : List Char) : List (List Char) := splitSlashAux s []

/-- Component resolution of `os.path.normpath` for absolute paths, with
the pending components kept as a reversed stack. -/
def resolveComps : List (List Char) → List (List Char) → List (List Char)
  | [], stack => stack.reverse
  | comp :: rest, stack =>
    if comp = [] ∨ comp = ['.'] then resolveComps rest stack
    else if comp = ['.', '.'] then resolveComps rest stack.tail
    else resolveComps rest (comp :: stack)

/-- Rejoins resolved components into an absolute path string. -/
def joinComps (comps : List (List Char)) : List Char :=
  match comps with
  | [] => ['/']
  | _ => comps.foldl (fun acc comp => acc ++ '/' :: comp) []

/-- Models `os.path.abspath` on an absolute input path. -/
def normAbs (p : List Char) : List Char := joinComps (resolveComps (splitSlash p) [])

/-- Models `file.lstrip(os.path.sep)`. -/
def lstripSlash : List Char → List Char
  | [] => []
  | ch :: rest => if ch = '/' then lstripSlash rest else ch :: rest

/-- Models `str.startswith`: `listStartsWith pre s` is true when `s`
starts with `pre`. -/
def listStartsWith : List Char → List Char → Bool
  | [], _ => true
  | _ :: _, [] => false
  | a :: pre1, b :: s => a = b && listStartsWith pre1 s

/-- Models `os.path.join(dir, rel)` for an absolute `dir` and a `rel`
with no leading separator (guaranteed here by the `lstrip`). -/
def pyJoinAbs (dir rel : List Char) : List Char :=
  if dir.getLast? = some '/' then dir ++ rel else dir ++ '/' :: rel

/-- The path computation shared by `LocalFilesystem.open` (line 513) and
`LocalFilesystem._validate` (line 564):
`os.path.abspath(os.path.join(self.directory, path.lstrip(os.path.sep)))`. -/
def LocalFilesystem.resolvePath (dir file : List Char) : List Char :=
  normAbs (pyJoinAbs dir (lstripSlash file))

/-- Embeds the path-safety guard of `LocalFilesystem.open` /
`LocalFilesystem._validate`: when `safe_paths` is set, a final path that
does not start (as a string) with the filesystem directory raises
`FileNotFoundError`; otherwise the final path is used. -/
def LocalFilesystem.validatePath (safePaths : Bool) (dir file : List Char) :
    Except PyErr (List Char) :=
  let path := LocalFilesystem.resolvePath dir file
  if safePaths && !listStartsWith dir path then .error (.fileNotFound file) else .ok path

/-- A path is inside the root directory: modelled from the spec's words,
it is the root itself or lies under the root followed by a separator. -/
def specInsideRoot (dir path : List Char) : Bool :=
  path = dir || listStartsWith (dir ++ ['/']) path

/-! ## Compressor keyword-argument copying (ezfs.Compressor, lines 145-176)

To make Python aliasing explicit, the values of the keyword-argument
dictionaries are modelled as addresses into a heap of mutable values. -/

/-- Heap addresses of mutable Python objects. -/
abbrev Addr := Nat

/-- A heap of mutable values, indexed by address. -/
abbrev Heap := List Bytes

/-- Embeds the data of `ezfs.Compressor`: the bound codec module (by
identity) and the `compression_kwargs`/`decompression_kwargs` dicts,
each binding a keyword name to the address of its value object. -/
structure Compressor where
  compressor : Nat
  compression_kwargs : List (String × Addr)
  decompression_kwargs : List (String × Addr)
  deriving DecidableEq, Repr

/-- Embeds `Compressor._copy` (lines 166-168): it rebuilds the instance
from `self.compression_kwargs.copy()` and
`self.decompression_kwargs.copy()`; both `dict.copy()` and the
`dict(...)` rebuild in `__init__` are shallow, so the copy holds the
same keyword-to-address bindings. -/
def Compressor.copyC (c : Compressor) : Compressor :=
  ⟨c.compressor, c.compression_kwargs, c.decompression_kwargs⟩

/-- Keyword arguments as the codec call sees them: every name resolved
to the current value of the referenced object in the heap. -/
def resolveKwargs (h : Heap) (kw : List (String × Addr)) : List (String × Option Bytes) :=
  kw.map fun p => (p.1, h.get? p.2)

/-- In-place mutation of the value object at an address. -/
def heapSet (h : Heap) (a : Addr) (v : Bytes) : Heap := h.set a v

/-! ## SQLite identifier validation (ezfs.SQLiteFilesystem, lines 787-793) -/

/-- Characters matched by the source's character class `[A-za-z0-9_]`:
the range `A-z` spans codepoints 65 to 122 (so it includes the
codepoints 91 to 96), `a-z` and `_` lie inside it, and `0-9` adds the
digits. -/
def reClassChar (ch : Char) : Bool :=
  (48 ≤ ch.toNat && ch.toNat ≤ 57) || (65 ≤ ch.toNat && ch.toNat ≤ 122)

/-- Truth of `re.match` for the source's anchored pattern on a value: a
non-empty run of class characters must cover the whole string, except
that the trailing `$` may also match just before one final newline. -/
def reMatchIdent (s : List Char) : Bool :=
  let core := if s.getLast? = some '\n' then s.dropLast else s
  !core.isEmpty && core.all reClassChar

/-- Word characters of the spec's pattern `[A-Za-z0-9_]`: ASCII letters,
digits, and underscore only. -/
def specWordChar (ch : Char) : Bool :=
  (48 ≤ ch.toNat && ch.toNat ≤ 57) || (65 ≤ ch.toNat && ch.toNat ≤ 90) ||
    (97 ≤ ch.toNat && ch.toNat ≤ 122) || ch = '_'

/-- The spec's identifier condition: a non-empty string of word characters. -/
def specIdentOk (s : List Char) : Bool := !s.isEmpty && s.all specWordChar

/-- Embeds the identifier-validation loop of `SQLiteFilesystem.__init__`
(lines 787-793): the three names are checked in order against the
source's regex, raising `ValueError` for the first failure. -/
def SQLiteFilesystem.initCheck (tableName fileCol contentCol : List Char) : Option PyErr :=
  if !reMatchIdent tableName then some (.identError "table_name")
  else if !reMatchIdent fileCol then some (.identError "file_col")
  else if !reMatchIdent contentCol then some (.identError "content_col")
  else none

/-! ## Compression resolution in Filesystem.open (lines 252-260, 360-365) -/

/-- A Python value passed as a compression selector: `None`, a string
name, or a `Transform` instance. -/
inductive CompArg where
  | pynone
  | name (s : List Char)
  | transf (t : Transform)

/-- Python truthiness of a compression selector: `None` and the empty
string are falsy, every `Transform` instance is truthy. -/
def CompArg.isTruthy : CompArg → Bool
  | .pynone => false
  | .name s => !s.isEmpty
  | .transf _ => true

/-- Embeds Python's short-circuit `a or b`. -/
def pyOr (a b : CompArg) : CompArg := if a.isTruthy then a else b

/-- The string-keyed part of the `__COMPRESSORS__` cache; the sentinel
name "none" maps to no transform (line 899). -/
abbrev Registry := List (List Char × Option Transform)

/-- Dictionary lookup in the compressor cache. -/
def registryGet : Registry → List Char → Option (Option Transform)
  | [], _ => none
  | p :: rest, k => if p.1 = k then some p.2 else registryGet rest k

/-- Embeds the compression resolution in `File.__init__` (line 364):
`__COMPRESSORS__[compression] if isinstance(compression, str) else
compression`; a missing name raises `KeyError`. -/
def File.resolveCompression (reg : Registry) : CompArg → Except PyErr (Option Transform)
  | .name s =>
    match registryGet reg s with
    | some v => .ok v
    | none => .error (.keyError s)
  | .pynone => .ok none
  | .transf t => .ok (some t)

/-- Embeds `Filesystem.open`'s effective selector
`compression or self.compression` (line 257) followed by the
`File.__init__` resolution. -/
def Filesystem.openCompression (reg : Registry) (fsDefault arg : CompArg) :
    Except PyErr (Option Transform) :=
  File.resolveCompression reg (pyOr arg fsDefault)

/-- Embeds the transform resolution in `File.__init__` (line 365):
`transform if transform != NO_TRANSFORM else None`.  The stored
attribute is the argument itself unless it equals the sentinel string
"none", which becomes `None`; `None` and `Transform` instances are never
equal to that string. -/
def File.resolveTransform : CompArg → CompArg
  | .name s => if s = ['n', 'o', 'n', 'e'] then .pynone else .name s
  | .pynone => .pynone
  | .transf t => .transf t

/-- Embeds `Filesystem.open`'s effective selector
`transform or self.transform` (line 258) followed by the
`File.__init__` resolution. -/
def Filesystem.openTransform (fsDefault arg : CompArg) : CompArg :=
  File.resolveTransform (pyOr arg fsDefault)

theorem utf8DecodeSM_lead1 (b : Nat) (rest : Bytes) (h : b < 128) :
    utf8DecodeSM none (b :: rest) = b :: utf8DecodeSM none rest := by
  simp [utf8DecodeSM, h]

theorem utf8DecodeSM_lead2 (b : Nat) (rest : Bytes) (h1 : ¬b < 128) (h2 : b < 224) :
    utf8DecodeSM none (b :: rest) = utf8DecodeSM (some (b - 192, 1)) rest := by
  simp [utf8DecodeSM, h1, h2]

theorem utf8DecodeSM_lead3 (b : Nat) (rest : Bytes) (h1 : ¬b < 128) (h2 : ¬b < 224)
    (h3 : b < 240) : utf8DecodeSM none (b :: rest) = utf8DecodeSM (some (b - 224, 2)) rest := by
  simp [utf8DecodeSM, h1, h2, h3]

theorem utf8DecodeSM_lead4 (b : Nat) (rest : Bytes) (h1 : ¬b < 128) (h2 : ¬b < 224)
    (h3 : ¬b < 240) : utf8DecodeSM none (b :: rest) = utf8DecodeSM (some (b - 240, 3)) rest := by
  simp [utf8DecodeSM, h1, h2, h3]

theorem utf8DecodeSM_cont1 (acc b : Nat) (rest : Bytes) :
    utf8DecodeSM (some (acc, 1)) (b :: rest) =
      (acc * 64 + (b - 128)) :: utf8DecodeSM none rest := by
  simp [utf8DecodeSM]

theorem utf8DecodeSM_cont (acc k b : Nat) (rest : Bytes) (h : k ≠ 1) :
    utf8DecodeSM (some (acc, k)) (b :: rest) =
      utf8DecodeSM (some (acc * 64 + (b - 128), k - 1)) rest := by
  simp [utf8DecodeSM, h]

theorem utf8Decode_encodeChar (c : Nat) (hc : c < 1114112) (rest : Bytes) :
    utf8Decode (utf8EncodeChar c ++ rest) = c :: utf8Decode rest := by
  unfold utf8Decode utf8EncodeChar
  split_ifs with h1 h2 h3
  · simp only [List.cons_append, List.nil_append]
    rw [utf8DecodeSM_lead1 c rest h1]
  · simp only [List.cons_append, List.nil_append]
    rw [utf8DecodeSM_lead2 (192 + c / 64) _ (by omega) (by omega),
      utf8DecodeSM_cont1]
    have hv : (192 + c / 64 - 192) * 64 + (128 + c % 64 - 128) = c := by omega
    rw [hv]
  · simp only [List.cons_append, List.nil_append]
    rw [utf8DecodeSM_lead3 (224 + c / 4096) _ (by omega) (by omega) (by omega),
      utf8DecodeSM_cont _ 2 _ _ (by omega), utf8DecodeSM_cont1]
    have hv : ((224 + c / 4096 - 224) * 64 + (128 + c / 64 % 64 - 128)) * 64 +
        (128 + c % 64 - 128) = c := by omega
    rw [hv]
  · simp only [List.cons_append, List.nil_append]
    rw [utf8DecodeSM_lead4 (240 + c / 262144) _ (by omega) (by omega) (by omega),
      utf8DecodeSM_cont _ 3 _ _ (by omega), utf8DecodeSM_cont _ _ _ _ (by omega),
      utf8DecodeSM_cont1]
    have hv : (((240 + c / 262144 - 240) * 64 + (128 + c / 4096 % 64 - 128)) * 64 +
        (128 + c / 64 % 64 - 128)) * 64 + (128 + c % 64 - 128) = c := by omega
    rw [hv]

theorem utf8Decode_utf8Encode (s : Str) (h : ∀ c ∈ s, validCodepoint c) :
    utf8Decode (utf8Encode s) = s := by
  induction s with
  | nil => rfl
  | cons c rest ih =>
    have hc : validCodepoint c := h c (List.mem_cons_self c rest)
    simp only [utf8Encode]
    rw [utf8Decode_encodeChar c hc.1, ih]
    intro x hx
    exact h x (List.mem_cons_of_mem c hx)

theorem optRemove_optApply (t : Option Transform) (h : InvertsOpt t) (b : Bytes) :
    optRemove t (optApply t b) = b := by
  cases t with
  | none => rfl
  | some tr => exact h b

theorem treeGet_treeSet (tree : Tree) (k : PathStr) (v : Content) :
    treeGet (treeSet tree k v) k = some v := by
  induction tree with
  | nil => simp [treeSet, treeGet]
  | cons p rest ih =>
    by_cases h : p.1 = k
    · simp [treeSet, treeGet, h]
    · simp [treeSet, treeGet, h, ih]

theorem writePipeline_str (c t : Option Transform) (wm : Mode) (X : Str)
    (hw : 'w' ∈ wm) (ht : 't' ∈ wm) :
    File.writePipeline false c t wm (.str X) =
      .ok (.bytes (optApply c (optApply t (utf8Encode X)))) := by
  cases c <;> cases t <;>
    simp [File.writePipeline, File.writeChecks, hw, ht, applyOptT,
      Content.encodeIfStr, optApply, Except.bind]

theorem writePipeline_bytes (c t : Option Transform) (wm : Mode) (X : Bytes)
    (hw : 'w' ∈ wm) (hb : 'b' ∈ wm) :
    File.writePipeline false c t wm (.bytes X) =
      .ok (.bytes (optApply c (optApply t X))) := by
  cases c <;> cases t <;>
    simp [File.writePipeline, File.writeChecks, hw, hb, applyOptT,
      Content.encodeIfStr, optApply, Except.bind]

theorem memRead_after_set (tree : Tree) (path : PathStr) (c t : Option Transform)
    (rm : Mode) (B : Bytes) (hr : 'r' ∈ rm) :
    MemFile.read (treeSet tree path (.bytes B)) path c t rm =
      .ok (decodeIfText rm (.bytes (optRemove t (optRemove c B)))) := by
  cases c <;> cases t <;>
    simp [MemFile.read, MemFile.readChecks, treeGet_treeSet, hr, removeOptT,
      optRemove, Except.bind]

/-- C1: on the in-memory filesystem, for every compression and extra
transform whose `remove` inverts its `apply` (including none at all),
`File.write` of content `X` followed by `File.read` of the same path in
the same text/binary setting returns `X` exactly; concretely, with no
compression, writing the text `"abc"` under mode `"w"` (normalized to
`"wt"` by the open checks) returns 3, reading the path back in binary
mode gives the bytes of `"abc"`, and reading it back in text mode gives
`"abc"` again. -/
theorem mem_write_read_roundtrip (tree : Tree) (path : PathStr)
    (c t : Option Transform) (hc : InvertsOpt c) (ht : InvertsOpt t) :
    (∀ (wm rm : Mode) (X : Str), 'w' ∈ wm → 't' ∈ wm → 'r' ∈ rm → 't' ∈ rm →
      (∀ cp ∈ X, validCodepoint cp) →
      ∃ n tree', MemFile.write tree path c t wm (.str X) = .ok (n, tree') ∧
        MemFile.read tree' path c t rm = .ok (.str X)) ∧
    (∀ (wm rm : Mode) (X : Bytes), 'w' ∈ wm → 'b' ∈ wm → 'r' ∈ rm → 't' ∉ rm →
      ∃ n tree', MemFile.write tree path c t wm (.bytes X) = .ok (n, tree') ∧
        MemFile.read tree' path c t rm = .ok (.bytes X)) ∧
    (File.openChecks ['w'] = (['w', 't'], none) ∧
      MemFile.write [] ['f'] none none ['w', 't'] (.str [97, 98, 99]) =
        .ok (3, [(['f'], .bytes [97, 98, 99])]) ∧
      MemFile.read [(['f'], .bytes [97, 98, 99])] ['f'] none none ['r', 'b'] =
        .ok (.bytes [97, 98, 99]) ∧
      MemFile.read [(['f'], .bytes [97, 98, 99])] ['f'] none none ['r', 't'] =
        .ok (.str [97, 98, 99])) := by
  refine ⟨?_, ?_, ⟨by decide, rfl, rfl, rfl⟩⟩
  · intro wm rm X hw hwt hr hrt hX
    have hwr : MemFile.write tree path c t wm (.str X) =
        .ok ((Content.bytes (optApply c (optApply t (utf8Encode X)))).pyLen,
          treeSet tree path (.bytes (optApply c (optApply t (utf8Encode X))))) := by
      unfold MemFile.write
      rw [writePipeline_str c t wm X hw hwt]
      rfl
    refine ⟨_, _, hwr, ?_⟩
    rw [memRead_after_set tree path c t rm _ hr,
      optRemove_optApply c hc, optRemove_optApply t ht, decodeIfText,
      if_pos hrt, utf8Decode_utf8Encode X hX]
  · intro wm rm X hw hb hr hrt
    have hwr : MemFile.write tree path c t wm (.bytes X) =
        .ok ((Content.bytes (optApply c (optApply t X))).pyLen,
          treeSet tree path (.bytes (optApply c (optApply t X)))) := by
      unfold MemFile.write
      rw [writePipeline_bytes c t wm X hw hb]
      rfl
    refine ⟨_, _, hwr, ?_⟩
    rw [memRead_after_set tree path c t rm _ hr,
      optRemove_optApply c hc, optRemove_optApply t ht, decodeIfText,
      if_neg hrt]

/-- C1 witness: instantiates the round trip at a concrete input with no
compression and no transform. -/
theorem mem_write_read_roundtrip_witness :
    InvertsOpt none ∧
      (∃ n tree', MemFile.write [] ['g'] none none ['w', 't'] (.str [104]) = .ok (n, tree') ∧
        MemFile.read tree' ['g'] none none ['r', 't'] = .ok (.str [104])) := by
  refine ⟨True.intro, ?_⟩
  exact (mem_write_read_roundtrip [] ['g'] none none True.intro True.intro).1
    ['w', 't'] ['r', 't'] [104] (by decide) (by decide) (by decide) (by decide) (by decide)

/-- C2: for every pair of transforms `A` and `B`, `Transform.chain(A, B)`
applies `A`'s forward function then `B`'s (ascending order) and removes
`B`'s backward function first then `A`'s (descending order); when each
transform's backward function inverts its forward function, the chain's
`remove` inverts the chain's `apply` on every input. -/
theorem transform_chain_order_and_inverse (A B : Transform)
    (hA : ∀ z, A.removeFn (A.applyFn z) = z) (hB : ∀ z, B.removeFn (B.applyFn z) = z) :
    (∀ x, (Transform.chain A [B]).apply x = B.applyFn (A.applyFn x)) ∧
    (∀ y, (Transform.chain A [B]).remove y = A.removeFn (B.removeFn y)) ∧
    (∀ x, (Transform.chain A [B]).remove ((Transform.chain A [B]).apply x) = x) := by
  obtain ⟨fA, rA, dA⟩ := A
  obtain ⟨fB, rB, dB⟩ := B
  have hA' : ∀ z, rA (fA z) = z := hA
  have hB' : ∀ z, rB (fB z) = z := hB
  refine ⟨fun x => rfl, fun y => rfl, fun x => ?_⟩
  show rA (rB (fB (fA x))) = x
  rw [hB', hA']

/-- C2 witness: a concrete chain of two invertible transforms (reverse
and cons-a-zero-byte). -/
theorem transform_chain_order_and_inverse_witness :
    (∀ z, (Transform.mk List.reverse List.reverse none).removeFn
      ((Transform.mk List.reverse List.reverse none).applyFn z) = z) ∧
    (∀ z, (Transform.mk (fun b => 0 :: b) List.tail none).removeFn
      ((Transform.mk (fun b => 0 :: b) List.tail none).applyFn z) = z) ∧
    (∀ x, (Transform.chain (.mk List.reverse List.reverse none)
        [.mk (fun b => 0 :: b) List.tail none]).remove
      ((Transform.chain (.mk List.reverse List.reverse none)
        [.mk (fun b => 0 :: b) List.tail none]).apply x) = x) := by
  have h1 : ∀ z : Bytes, (Transform.mk List.reverse List.reverse none).removeFn
      ((Transform.mk List.reverse List.reverse none).applyFn z) = z := by
    intro z; simp [Transform.applyFn, Transform.removeFn]
  have h2 : ∀ z : Bytes, (Transform.mk (fun b => 0 :: b) List.tail none).removeFn
      ((Transform.mk (fun b => 0 :: b) List.tail none).applyFn z) = z := by
    intro z; simp [Transform.applyFn, Transform.removeFn]
  exact ⟨h1, h2, (transform_chain_order_and_inverse _ _ h1 h2).2.2⟩

theorem openChecksConflicts_fst (m : Mode) : (File.openChecksConflicts m).1 = m := by
  unfold File.openChecksConflicts
  split_ifs <;> rfl

theorem openChecksConflicts_none (m : Mode) (h : (File.openChecksConflicts m).2 = none) :
    ¬('r' ∈ m ∧ 'w' ∈ m) ∧ ¬('t' ∈ m ∧ 'b' ∈ m) := by
  unfold File.openChecksConflicts at h
  split_ifs at h with h1 h2
  exact ⟨h1, h2⟩

/-- C3: `_open_checks` validates a mode string with its checks in source
order: a character outside `r,w,b,t,+` raises the invalid-argument error
carrying the mode; a valid mode lacking both "t" and "b" has "t"
appended; a valid mode with both "r" and "w" raises the
read/write-conflict error; a valid mode with both "t" and "b" (and not
the earlier read/write conflict) raises the text/binary-conflict
error. -/
theorem open_checks_mode_validation (mode : Mode) :
    ((∃ ch ∈ mode, ch ∉ validModes) →
      File.openChecks mode = (mode, some (.invalidMode mode))) ∧
    ((∀ ch ∈ mode, ch ∈ validModes) → 't' ∉ mode → 'b' ∉ mode →
      (File.openChecks mode).1 = mode ++ ['t']) ∧
    ((∀ ch ∈ mode, ch ∈ validModes) → 'r' ∈ mode → 'w' ∈ mode →
      (File.openChecks mode).2 = some .readWriteMode) ∧
    ((∀ ch ∈ mode, ch ∈ validModes) → ¬('r' ∈ mode ∧ 'w' ∈ mode) →
      't' ∈ mode → 'b' ∈ mode →
      (File.openChecks mode).2 = some .textBinaryMode) := by
  refine ⟨?_, ?_, ?_, ?_⟩
  · rintro ⟨ch, hch, hnv⟩
    have hnall : ¬∀ c ∈ mode, c ∈ validModes := fun hall => hnv (hall ch hch)
    unfold File.openChecks
    rw [if_neg hnall]
  · intro hall hnt hnb
    unfold File.openChecks
    rw [if_pos hall, if_pos ⟨hnt, hnb⟩, openChecksConflicts_fst]
  · intro hall hr hw
    unfold File.openChecks
    rw [if_pos hall]
    by_cases htb : 't' ∉ mode ∧ 'b' ∉ mode
    · rw [if_pos htb]
      unfold File.openChecksConflicts
      rw [if_pos ⟨List.mem_append_left _ hr, List.mem_append_left _ hw⟩]
    · rw [if_neg htb]
      unfold File.openChecksConflicts
      rw [if_pos ⟨hr, hw⟩]
  · intro hall hnrw htm hbm
    unfold File.openChecks
    rw [if_pos hall, if_neg (by simp [htm]), File.openChecksConflicts,
      if_neg hnrw, if_pos ⟨htm, hbm⟩]

/-- C3 witness: the invalid mode "u" raises the invalid-argument error
carrying "u". -/
theorem open_checks_mode_validation_witness :
    (∃ ch ∈ ['u'], ch ∉ validModes) ∧
      File.openChecks ['u'] = (['u'], some (.invalidMode ['u'])) :=
  ⟨by decide, (open_checks_mode_validation ['u']).1 (by decide)⟩

/-- C4 counterexample: mode "b" completes `_open_checks` without error,
yet the resulting mode contains neither "r" nor "w", so the claimed
"exactly one of r/w present" invariant fails on the code. -/
theorem open_checks_exactly_one_rw_cex :
    (File.openChecks ['b']).2 = none ∧
      'r' ∉ (File.openChecks ['b']).1 ∧ 'w' ∉ (File.openChecks ['b']).1 := by
  decide

/-- C4 (amended): whenever `_open_checks` completes without error, the
resulting mode contains only characters from `r,w,b,t,+`, at most one of
"r"/"w" (the code never requires one to be present), not both "t" and
"b", and "t" was appended whenever neither "t" nor "b" was given. -/
theorem open_checks_mode_invariant (mode : Mode)
    (h : (File.openChecks mode).2 = none) :
    (∀ ch ∈ (File.openChecks mode).1, ch ∈ validModes) ∧
    ¬('r' ∈ (File.openChecks mode).1 ∧ 'w' ∈ (File.openChecks mode).1) ∧
    ¬('t' ∈ (File.openChecks mode).1 ∧ 'b' ∈ (File.openChecks mode).1) ∧
    ('t' ∉ mode → 'b' ∉ mode → (File.openChecks mode).1 = mode ++ ['t']) := by
  by_cases hall : ∀ c ∈ mode, c ∈ validModes
  · by_cases htb : 't' ∉ mode ∧ 'b' ∉ mode
    · have heq : File.openChecks mode = File.openChecksConflicts (mode ++ ['t']) := by
        unfold File.openChecks
        rw [if_pos hall, if_pos htb]
      rw [heq] at h ⊢
      rw [openChecksConflicts_fst]
      obtain ⟨h1, h2⟩ := openChecksConflicts_none _ h
      refine ⟨?_, h1, h2, fun _ _ => rfl⟩
      intro ch hch
      rcases List.mem_append.mp hch with hm | hm
      · exact hall ch hm
      · rw [List.mem_singleton] at hm
        subst hm
        decide
    · have heq : File.openChecks mode = File.openChecksConflicts mode := by
        unfold File.openChecks
        rw [if_pos hall, if_neg htb]
      rw [heq] at h ⊢
      rw [openChecksConflicts_fst]
      obtain ⟨h1, h2⟩ := openChecksConflicts_none _ h
      exact ⟨hall, h1, h2, fun hnt hnb => absurd ⟨hnt, hnb⟩ htb⟩
  · exfalso
    unfold File.openChecks at h
    rw [if_neg hall] at h
    cases h

/-- C4 amended-claim witness at the error-free mode "w". -/
theorem open_checks_mode_invariant_witness :
    (File.openChecks ['w']).2 = none ∧
      ((∀ ch ∈ (File.openChecks ['w']).1, ch ∈ validModes) ∧
      ¬('r' ∈ (File.openChecks ['w']).1 ∧ 'w' ∈ (File.openChecks ['w']).1) ∧
      ¬('t' ∈ (File.openChecks ['w']).1 ∧ 'b' ∈ (File.openChecks ['w']).1) ∧
      ('t' ∉ ['w'] → 'b' ∉ ['w'] → (File.openChecks ['w']).1 = ['w'] ++ ['t'])) :=
  ⟨by decide, open_checks_mode_invariant ['w'] (by decide)⟩

theorem encodeIfStr_toBytes (c : Content) : c.encodeIfStr = .bytes c.toBytes := by
  cases c <;> rfl

theorem applyOptT_bytes (t : Option Transform) (b : Bytes) :
    applyOptT t (.bytes b) = .ok (.bytes (optApply t b)) := by
  cases t <;> rfl

theorem writePipeline_compressed (c : Transform) (t : Option Transform) (mode : Mode)
    (content : Content) (hwc : File.writeChecks mode content = none) :
    File.writePipeline false (some c) t mode content =
      .ok (.bytes (c.apply (optApply t content.toBytes))) := by
  cases t <;> cases content <;>
    simp_all [File.writePipeline, applyOptT, Content.encodeIfStr, Content.toBytes,
      optApply, Except.bind]

/-- C5: when a compression transform is active, `MemFile` `write`
returns the length of the compressed bytes stored in the tree (the
output of the compression transform), not the length of the
pre-compression input. -/
theorem mem_write_returns_compressed_length (tree : Tree) (path : PathStr)
    (c : Transform) (t : Option Transform) (mode : Mode) (content : Content)
    (n : Nat) (tree' : Tree)
    (h : MemFile.write tree path (some c) t mode content = .ok (n, tree')) :
    n = (c.apply (optApply t content.toBytes)).length ∧
    treeGet tree' path = some (.bytes (c.apply (optApply t content.toBytes))) := by
  cases hwc : File.writeChecks mode content with
  | some e =>
    unfold MemFile.write File.writePipeline at h
    rw [hwc] at h
    simp [Except.map] at h
  | none =>
    unfold MemFile.write at h
    rw [writePipeline_compressed c t mode content hwc] at h
    rw [Except.map, Except.ok.injEq, Prod.mk.injEq] at h
    obtain ⟨hn, htr⟩ := h
    subst hn
    subst htr
    exact ⟨rfl, treeGet_treeSet tree path _⟩

/-- C5 witness: a doubling "compressor" on a one-character text write
returns 2 (the compressed length), not 1 (the input length). -/
theorem mem_write_returns_compressed_length_witness :
    MemFile.write [] ['f'] (some dupTransform) none ['w', 't'] (.str [97]) =
      .ok (2, [(['f'], .bytes [97, 97])]) ∧
    (2 = (dupTransform.apply (optApply none (Content.str [97]).toBytes)).length ∧
      treeGet [(['f'], .bytes [97, 97])] ['f'] =
        some (.bytes (dupTransform.apply (optApply none (Content.str [97]).toBytes)))) :=
  ⟨rfl, mem_write_returns_compressed_length [] ['f'] dupTransform none ['w', 't']
    (.str [97]) 2 [(['f'], .bytes [97, 97])] rfl⟩

/-- C6: on the in-memory filesystem, renaming onto an existing
destination raises `FileExistsError` before the backend rename runs: the
returned tree is the input tree unchanged, and the source entry still
holds its original content. -/
theorem rename_existing_dst_fails (tree : Tree) (src dst : PathStr) (v w : Content)
    (hsrc : treeGet tree src = some v) (hdst : treeGet tree dst = some w) :
    MemFilesystem.rename tree src dst none none = (tree, some (.fileExists dst)) ∧
    treeGet tree src = some v := by
  refine ⟨?_, hsrc⟩
  unfold MemFilesystem.rename
  simp [hsrc, hdst]

/-- C6 witness: a concrete two-file tree where the destination exists. -/
theorem rename_existing_dst_fails_witness :
    treeGet [(['a'], Content.bytes [0]), (['b'], Content.bytes [1])] ['a'] =
        some (.bytes [0]) ∧
    treeGet [(['a'], Content.bytes [0]), (['b'], Content.bytes [1])] ['b'] =
        some (.bytes [1]) ∧
    (MemFilesystem.rename [(['a'], Content.bytes [0]), (['b'], Content.bytes [1])]
        ['a'] ['b'] none none =
      ([(['a'], Content.bytes [0]), (['b'], Content.bytes [1])],
        some (.fileExists ['b'])) ∧
      treeGet [(['a'], Content.bytes [0]), (['b'], Content.bytes [1])] ['a'] =
        some (.bytes [0])) :=
  ⟨rfl, rfl, rename_existing_dst_fails _ ['a'] ['b'] (.bytes [0]) (.bytes [1]) rfl rfl⟩

/-- C7: evaluation of the path-safety guard on the failing input.  With
root directory "/a/b", the path "../bc" resolves to "/a/bc" — an
absolute location outside the root — yet the guard accepts it, because
the code checks `path.startswith(self.directory)` and "/a/bc" starts
with the string "/a/b".  The spec's own scenario does hold: "../esc"
resolves to "/a/esc", fails the string test, and raises the not-found
error. -/
theorem local_path_escape_eval :
    LocalFilesystem.validatePath true ['/', 'a', '/', 'b'] ['.', '.', '/', 'b', 'c'] =
      .ok ['/', 'a', '/', 'b', 'c'] ∧
    specInsideRoot ['/', 'a', '/', 'b'] ['/', 'a', '/', 'b', 'c'] = false ∧
    LocalFilesystem.validatePath true ['/', 'a', '/', 'b'] ['.', '.', '/', 'e', 's', 'c'] =
      .error (.fileNotFound ['.', '.', '/', 'e', 's', 'c']) :=
  ⟨rfl, rfl, rfl⟩

/-- C8 counterexample: a compressor whose keyword value lives at heap
address 0; mutating that value through the original changes the resolved
keyword mapping of the copy, so `_copy` does not deep-copy nested
mutable values. -/
theorem compressor_copy_shares_nested_values_cex :
    resolveKwargs (heapSet [[9]] 0 [1])
        (Compressor.copyC ⟨0, [("k", 0)], []⟩).compression_kwargs ≠
      resolveKwargs [[9]] (Compressor.copyC ⟨0, [("k", 0)], []⟩).compression_kwargs := by
  decide

/-- C8 (amended): `Compressor._copy` copies the keyword mappings
shallowly — the copy carries the same keyword-to-reference bindings as
the original, so under every heap state (including after mutations made
through the original) the copy's resolved keyword mappings coincide with
the original's; nested mutable values are shared, not deep-copied. -/
theorem compressor_copy_shallow (c : Compressor) (h : Heap) :
    (Compressor.copyC c).compression_kwargs = c.compression_kwargs ∧
    (Compressor.copyC c).decompression_kwargs = c.decompression_kwargs ∧
    resolveKwargs h (Compressor.copyC c).compression_kwargs =
      resolveKwargs h c.compression_kwargs ∧
    resolveKwargs h (Compressor.copyC c).decompression_kwargs =
      resolveKwargs h c.decompression_kwargs :=
  ⟨rfl, rfl, rfl, rfl⟩

/-- C9: evaluation of the SQLite identifier validation.  The source's
pattern is `[A-za-z0-9_]+`, and the range `A-z` also covers the
codepoints 91 to 96, so the table name "a[b" passes validation with no
error although the spec's pattern `[A-Za-z0-9_]+` rejects it; a name
with a character outside `A-z`, such as "a@b", is rejected as the claim
expects. -/
theorem sqlite_ident_check_eval :
    SQLiteFilesystem.initCheck ['a', '[', 'b'] ['f'] ['c'] = none ∧
    specIdentOk ['a', '[', 'b'] = false ∧
    SQLiteFilesystem.initCheck ['a', '@', 'b'] ['f'] ['c'] =
      some (.identError "table_name") :=
  ⟨rfl, rfl, rfl⟩

/-- C10: in `Filesystem.open`, a falsy per-call compression argument and
a falsy per-call transform argument (`None` or the empty string) are no
override — the filesystem default is what gets resolved in either slot,
so `None` cannot disable a configured default — while the registered
sentinel name "none" as the compression argument resolves to no
compression, overriding any default. -/
theorem open_falsy_no_override (reg : Registry) (cDefault cArg tDefault tArg : CompArg)
    (hcfalsy : cArg.isTruthy = false) (htfalsy : tArg.isTruthy = false)
    (hreg : registryGet reg ['n', 'o', 'n', 'e'] = some none) :
    Filesystem.openCompression reg cDefault cArg =
      File.resolveCompression reg cDefault ∧
    Filesystem.openTransform tDefault tArg = File.resolveTransform tDefault ∧
    Filesystem.openCompression reg cDefault (.name ['n', 'o', 'n', 'e']) = .ok none := by
  refine ⟨?_, ?_, ?_⟩
  · simp [Filesystem.openCompression, pyOr, hcfalsy]
  · simp [Filesystem.openTransform, pyOr, htfalsy]
  · simp [Filesystem.openCompression, pyOr, CompArg.isTruthy,
      File.resolveCompression, hreg]

/-- C10 witness: a one-entry registry holding the sentinel, a
compression default set by name, a transform default set to a concrete
instance, and `None` as both per-call arguments. -/
theorem open_falsy_no_override_witness :
    CompArg.isTruthy .pynone = false ∧
    registryGet [(['n', 'o', 'n', 'e'], none)] ['n', 'o', 'n', 'e'] = some none ∧
    (Filesystem.openCompression [(['n', 'o', 'n', 'e'], none)] (.name ['g']) .pynone =
      File.resolveCompression [(['n', 'o', 'n', 'e'], none)] (.name ['g']) ∧
    Filesystem.openTransform (.transf dupTransform) .pynone =
      File.resolveTransform (.transf dupTransform) ∧
    Filesystem.openCompression [(['n', 'o', 'n', 'e'], none)] (.name ['g'])
        (.name ['n', 'o', 'n', 'e']) = .ok none) :=
  ⟨rfl, rfl, open_falsy_no_override _ _ _ (.transf dupTransform) _ rfl rfl rfl⟩

end EzFS
